import Mathlib

/-!
Verification of the Savu `Hdf5TransportData` slicing/padding core
(`savu/data/transport_data/hdf5_transport_data.py`).

The Python code is shallowly embedded: numpy integer arrays become `List Int`
(or `List Nat` for shapes), Python `slice(start, stop, step)` objects with
concrete integer bounds become the structure `Sl`, `slice(None)` becomes
`Sel.all`, exceptions become `Except String`, and N-dimensional blocks
produced by basic slicing plus `np.pad(..., mode='edge')` are represented by
their per-axis index lists (basic slicing and edge padding both factorise
axis by axis: the block value at multi-index (j1, ..., jn) is
data[idx1[j1], ..., idxn[jn]]).
-/

namespace Savu

/-- A Python `slice(start, stop, step)` with concrete integer fields. -/
structure Sl where
  start : Int
  stop : Int
  step : Int
deriving DecidableEq, Repr

/-- One per-axis selector of a window: either `slice(None)` (select the whole
axis) or a concrete slice. -/
inductive Sel where
  | all : Sel
  | sl (s : Sl) : Sel
deriving DecidableEq, Repr

/-- A per-axis replicate-padding request `{before, after}`. -/
structure Pad where
  before : Nat
  after : Nat
deriving DecidableEq, Repr

/-- Number of elements of `np.arange(start, stop, step)` for a positive step:
`ceil((stop - start) / step)`, and `0` when `stop ≤ start`.  (Only positive
steps occur in the slicing core.) -/
def arangeLen (start stop step : Int) : Nat :=
  if step ≤ 0 then 0 else ((stop - start + step - 1) / step).toNat

/-- `np.arange(start, stop, step)` as a list of integers. -/
def npArange (start stop step : Int) : List Int :=
  (List.range (arangeLen start stop step)).map (fun (i : Nat) => start + step * (i : Int))

/-! ## IndexGenerator: `__chunk_length_repeat` and `__get_slice_dirs_index` -/

/-- Each element of `xs` repeated `c` times in place
(`[x0, x0, ..., x1, x1, ...]`). -/
def repeatEach (c : Nat) (xs : List Int) : List Int :=
  xs.flatMap (fun v => List.replicate c v)

/-- `r` copies of `xs` concatenated (`np.tile(xs, r)`). -/
def tileList (r : Nat) (xs : List Int) : List Int :=
  (List.replicate r xs).flatten

/-- `np.ravel(np.kron(values, np.ones((r, c))))` for a 1-D `values`:
`np.kron` lifts `values` to shape `(1, n)`, so the product has shape
`(r, n*c)` with entry `[k, j*c+l] = values[j]`; row-major ravel therefore
yields `r` tiled copies of `values` with each value repeated `c` times. -/
def kronRavelOnes (values : List Int) (r c : Nat) : List Int :=
  tileList r (repeatEach c values)

/-- `__chunk_length_repeat(slice_dirs, shape)` given the already-resolved
shape of the slice dimensions (`sshape`): returns `(chunk, length, repeat)`
where `chunk[i]` is the product of the slice-dimension lengths before `i`,
`length[i] = sshape[i]`, and `repeat[i]` is the product of the lengths after
`i`; `([1], [1], [1])` when there are no slice dimensions. -/
def chunkLengthRepeat (sshape : List Nat) : List Nat × List Nat × List Nat :=
  if sshape.isEmpty then ([1], [1], [1])
  else ((List.range sshape.length).map (fun d => (sshape.take d).prod),
        sshape,
        (List.range sshape.length).map (fun d => (sshape.drop (d + 1)).prod))

/-- `__get_slice_dirs_index(slice_dirs, shape)` given the per-axis raw index
sequences `valuess` (one list per slice dimension, from
`__get_slice_dir_index`) and the slice-dimension shape `sshape`: row `i` is
`np.ravel(np.kron(values_i, np.ones((repeat[i], chunk[i]))))`. -/
def sliceDirsIndexOf (valuess : List (List Int)) (sshape : List Nat) : List (List Int) :=
  let clr := chunkLengthRepeat sshape
  (List.range valuess.length).map
    (fun i => kronRavelOnes (valuess.getD i []) (clr.2.2.getD i 1) (clr.1.getD i 1))

/-- The tiled per-axis array that claim C1 describes in the spec's words:
each raw value repeated `repeat[i]` times, the block tiled `chunk[i]` times. -/
def specClaimAxis (valuess : List (List Int)) (sshape : List Nat) (i : Nat) : List Int :=
  let clr := chunkLengthRepeat sshape
  tileList (clr.1.getD i 1) (repeatEach (clr.2.2.getD i 1) (valuess.getD i []))

/-- All combinations of one element from each list, enumerated with the FIRST
list varying fastest (innermost): the reference Cartesian enumeration used to
characterise the order in which `_single_slice_list` emits windows. -/
def cartProd : List (List Int) → List (List Int)
  | [] => [[]]
  | vs :: rest => (cartProd rest).flatMap (fun tail => vs.map (fun v => v :: tail))

/-- The tuple at position `t` of the `cartProd` enumeration, computed
arithmetically: coordinate `i` is `valuess[i][(t / prod of earlier lengths) %
length i]`. -/
def tupleAt : List (List Int) → Nat → List Int
  | [], _ => []
  | vs :: rest, t => vs.getD (t % vs.length) 0 :: tupleAt rest (t / vs.length)

/-- Transpose of a list of rows that all have length `ncols` (used to model
`np.transpose` / reading the index matrix column by column). -/
def matTranspose (m : List (List Int)) (ncols : Nat) : List (List Int) :=
  (List.range ncols).map (fun t => m.map (fun row => row.getD t 0))

/-! ## `_get_slice_dir_matrix` (chunk > 1 centred windows) -/

/-- `_get_slice_dir_matrix(dim)`: the `chunk × n` matrix whose entry `[k, j]`
is `points[j] + k - chunk/2` (Python 2 integer division), where `points =
np.arange(start, stop, step)`; raises when any entry is negative. -/
def sliceDirMatrix (start stop step : Int) (chunk : Nat) : Except String (List (List Int)) :=
  let pts := npArange start stop step
  let dimIdx := (List.range chunk).map
    (fun (k : Nat) => pts.map (fun p => p + (k : Int) - ((chunk / 2 : Nat) : Int)))
  if dimIdx.any (fun row => row.any (fun v => decide (v < 0))) then
    Except.error "Cannot have a negative value in the slice list."
  else
    Except.ok dimIdx

/-- `np.ravel(np.transpose(self._get_slice_dir_matrix(dim)))` from
`__get_slice_dir_index`: all chunk offsets of the first step point, then the
second, and so on. -/
def sliceDirFlat (start stop step : Int) (chunk : Nat) : Except String (List Int) :=
  (sliceDirMatrix start stop step chunk).map
    (fun m => (matTranspose m (npArange start stop step).length).flatten)

/-! ## PaddingEngine: `__calculate_slice_padding`, `__get_pad_data`,
`_get_unpadded_slice_data` -/

/-- `__calculate_slice_padding(in_slice, pad, data_stop)` for a slice with
concrete bounds: extend the bounds by the requested pad, clip to
`[0, data_stop]`, and return the clipped slice together with the clipped-off
amounts `(minpad, maxpad)` that `__get_pad_data` will edge-replicate. -/
def calcSlicePadding (sl : Sl) (pad : Pad) (dataStop : Int) : Sl × (Nat × Nat) :=
  let minval := sl.start - (pad.before : Int)
  let maxval := sl.stop + (pad.after : Int)
  let minpad : Nat := if minval < 0 then (0 - minval).toNat else 0
  let minval := if minval < 0 then 0 else minval
  let maxpad : Nat := if maxval > dataStop then (maxval - dataStop).toNat else 0
  let maxval := if maxval > dataStop then dataStop else maxval
  (⟨minval, maxval, sl.step⟩, (minpad, maxpad))

/-- The index list a slice selects on its axis (`data[sl]` row indices). -/
def sliceIndices (sl : Sl) : List Int :=
  npArange sl.start sl.stop sl.step

/-- `np.pad(block, (p.1, p.2), mode='edge')` seen through the per-axis index
lists: the first index is replicated `p.1` times in front and the last index
`p.2` times at the back. -/
def edgePadIndices (idxs : List Int) (p : Nat × Nat) : List Int :=
  if h : idxs = [] then []
  else List.replicate p.1 (idxs.head h) ++ idxs ++ List.replicate p.2 (idxs.getLast h)

/-- One padded axis of `_get_padded_slice_data`: clip-and-pad the slice, read
the clipped window, then edge-replicate by the clipped-off amounts. -/
def paddedAxis (sl : Sl) (pad : Pad) (extent : Nat) : List Int :=
  let r := calcSlicePadding sl pad (extent : Int)
  edgePadIndices (sliceIndices r.1) r.2

/-- Normalise a Python slice bound against a list of length `len`:
negative values count from the end, positive values are clamped to `len`. -/
def pyNorm (len : Nat) (i : Int) : Nat :=
  if i < 0 then ((len : Int) + i).toNat else min i.toNat len

/-- Python `xs[start:stop]` (step 1) with possibly negative `stop`. -/
def pySlice1 {α : Type} (xs : List α) (start stop : Int) : List α :=
  (xs.take (pyNorm xs.length stop)).drop (pyNorm xs.length start)

/-- One padded axis of the inverse crop in `_get_unpadded_slice_data`:
`end = padded_data.shape[ddir] if after is 0 else -after;
new_slice[ddir] = slice(before, end, 1)`. -/
def unpaddedAxis {α : Type} (pad : Pad) (block : List α) : List α :=
  let e : Int := if pad.after = 0 then (block.length : Int) else -(pad.after : Int)
  pySlice1 block (pad.before : Int) e

/-- `_get_padded_slice_data(input_slice_list)` (state-machine side effects
aside) over per-axis index lists: axes without an entry in the padding
dictionary are read as they are; padded axes are clipped, read, and
edge-replicated.  `pads.getD i none = none` models "axis `i` not in
`padding_dict`". -/
def getPaddedSliceData (sliceList : List Sl) (pads : List (Option Pad))
    (shape : List Nat) : List (List Int) :=
  (List.range sliceList.length).map (fun i =>
    match pads.getD i none with
    | none => sliceIndices (sliceList.getD i ⟨0, 0, 1⟩)
    | some p => paddedAxis (sliceList.getD i ⟨0, 0, 1⟩) p (shape.getD i 0))

/-- `_get_unpadded_slice_data(input_slice_list, padded_data)` (state-machine
side effects aside): axes not in the padding dictionary keep `slice(None)`;
padded axes are cropped to `[before, extent - after)`. -/
def getUnpaddedSliceData (pads : List (Option Pad))
    (block : List (List Int)) : List (List Int) :=
  (List.range block.length).map (fun i =>
    match pads.getD i none with
    | none => block.getD i []
    | some p => unpaddedAxis p (block.getD i []))

/-! ## SliceListBuilder: `_single_slice_list` and its helpers -/

/-- The inputs `_single_slice_list` reads from its collaborators: the resolved
data shape, the pattern's slice/core directions, the fixed directions with
their pinned values, and the preview's per-axis start/stop/step/chunk. -/
structure PatternData where
  shape : List Nat
  sliceDirs : List Nat
  coreDirs : List Nat
  fixDirs : List Nat
  fixValues : List Int
  starts : List Int
  stops : List Int
  steps : List Int
  chunks : List Nat
deriving DecidableEq, Repr

/-- `__get_core_slices(core_dirs)`: one slice per core direction; a core
direction with preview chunk > 1 must cover exactly one step point and
becomes a centred window, raising when the centred start would be negative or
when several step points are requested. -/
def getCoreSlices (pd : PatternData) : Except String (List Sl) :=
  pd.coreDirs.mapM (fun c =>
    let ch := pd.chunks.getD c 1
    let st := pd.starts.getD c 0
    if ch > 1 then
      if pd.stops.getD c 0 - st = 1 then
        let b := st - ((ch / 2 : Nat) : Int)
        if b < 0 then
          Except.error "Cannot have a negative value in the slice list."
        else
          Except.ok ⟨b, st + ((ch : Int) - ((ch / 2 : Nat) : Int)), 1⟩
      else
        Except.error "The core dimension does not support multiple chunks."
    else
      Except.ok ⟨st, pd.stops.getD c 0, pd.steps.getD c 0⟩)

/-- `__get_slice_dir_index(dim)`: the raw index sequence of one slice
dimension — the flattened centred matrix when the preview chunk exceeds 1,
the pinned value when the dimension is fixed, otherwise
`np.arange(start, stop, step)`. -/
def getSliceDirIndex (pd : PatternData) (dim : Nat) : Except String (List Int) :=
  if pd.chunks.getD dim 1 > 1 then
    sliceDirFlat (pd.starts.getD dim 0) (pd.stops.getD dim 0)
      (pd.steps.getD dim 1) (pd.chunks.getD dim 1)
  else if pd.fixDirs.contains dim then
    Except.ok [pd.fixValues.getD (pd.fixDirs.indexOf dim) 0]
  else
    Except.ok (npArange (pd.starts.getD dim 0) (pd.stops.getD dim 0) (pd.steps.getD dim 1))

/-- `__get_slice_dirs_index(slice_dirs, shape)`: gather the raw sequences of
every slice direction and tile each one with its `(chunk, repeat)` factors. -/
def getSliceDirsIndex (pd : PatternData) : Except String (List (List Int)) := do
  let valuess ← pd.sliceDirs.mapM (fun d => getSliceDirIndex pd d)
  pure (sliceDirsIndexOf valuess (pd.sliceDirs.map (fun d => pd.shape.getD d 0)))

/-- Write the values `vs` at the positions `dirs` of `getitem`
(`getitem[dirs] = vs`, numpy fancy assignment / the explicit Python loops). -/
def setDirs (getitem : List Sel) (dirs : List Nat) (vs : List Sel) : List Sel :=
  (dirs.zip vs).foldl (fun g dv => g.set dv.1 dv.2) getitem

/-- `_single_slice_list()`: one window per enumerated combination — start
from all-`slice(None)`, substitute the core windows, then the fixed pins as
single-index slices, then the `i`-th tiled index of each slice direction as a
single-position slice.  (The variable-length-axis removal is the identity
here: shapes are already resolved to integers.)  The Python function returns
a list unconditionally — there is no code path yielding `None`. -/
def singleSliceList (pd : PatternData) : Except String (List (List Sel)) := do
  let index ← getSliceDirsIndex pd
  let nDims := pd.shape.length
  let size := (index.map List.length).sum
  let nSlices := if size ≠ 0 then (index.headD []).length else pd.fixDirs.length
  let coreSlice ← getCoreSlices pd
  pure ((List.range nSlices).map (fun i =>
    let g0 := List.replicate nDims Sel.all
    let g1 := setDirs g0 pd.coreDirs (coreSlice.map Sel.sl)
    let g2 := setDirs g1 pd.fixDirs
      (pd.fixValues.map (fun v => Sel.sl ⟨v, v + 1, 1⟩))
    setDirs g2 pd.sliceDirs
      (index.map (fun row => Sel.sl ⟨row.getD i 0, row.getD i 0 + 1, 1⟩))))

/-! ## FrameGrouper: `__split_list`, `__banked_list`, `__grouped_slice_list` -/

/-- `__split_list(the_list, size)`:
`[the_list[x:x+size] for x in xrange(0, len(the_list), size)]`. -/
def splitList {α : Type} (l : List α) (size : Nat) : List (List α) :=
  if size = 0 then []
  else (List.range ((l.length + size - 1) / size)).map
    (fun k => (l.drop (k * size)).take size)

/-- `.start` of a selector (`slice(None).start` is unreachable for the
slice-direction selectors `_single_slice_list` produces; modelled as 0). -/
def selStart : Sel → Int
  | Sel.all => 0
  | Sel.sl s => s.start

/-- `.stop` of a selector (same remark as `selStart`). -/
def selStop : Sel → Int
  | Sel.all => 0
  | Sel.sl s => s.stop

/-- `__grouped_slice_list(slice_list, max_frames)` with `__banked_list`'s
bank size `len0` (= `length[0]` of `__chunk_length_repeat`), the primary
slice direction `groupDim` and its preview step `stepGD`: bank the flat list
into groups of `len0`, sub-split each bank into chunks of at most
`max_frames`, and merge each chunk into the batch window
`sub[0][groupDim := slice(sub[0].start, sub[-1].stop, stepGD)]`. -/
def groupedSliceListE (sliceList : List (List Sel)) (len0 : Nat)
    (groupDim : Nat) (stepGD : Int) (maxFrames : Nat) : List (List Sel) :=
  (splitList sliceList len0).flatMap (fun group =>
    (splitList group maxFrames).map (fun sub =>
      let first := sub.headD []
      let b := selStart (first.getD groupDim Sel.all)
      let e := selStop ((sub.getLastD []).getD groupDim Sel.all)
      first.set groupDim (Sel.sl ⟨b, e, stepGD⟩)))

/-- The merged batch window of one chunk, written the way the spec describes
it: coordinate `groupDim` becomes `slice(first.start, last.stop, step)` and
every other coordinate is copied unchanged from the chunk's first window. -/
def specMergeChunk (sub : List (List Sel)) (groupDim : Nat) (stepGD : Int) : List Sel :=
  let first := sub.headD []
  (List.range first.length).map (fun i =>
    if i = groupDim then
      Sel.sl ⟨selStart (first.getD groupDim Sel.all),
              selStop ((sub.getLastD []).getD groupDim Sel.all), stepGD⟩
    else first.getD i Sel.all)

/-- `_get_grouped_slice_list()`: build the single slice list (the Python
`if sl is None` guard cannot fire, since `_single_slice_list` always returns
a list), then group it; `group_dim = get_slice_directions()[0]` raises a bare
`IndexError` when the pattern declares no slice directions. -/
def getGroupedSliceList (pd : PatternData) (maxFrames : Nat) :
    Except String (List (List Sel)) := do
  let sl ← singleSliceList pd
  let sshape := pd.sliceDirs.map (fun d => pd.shape.getD d 0)
  let len0 := (chunkLengthRepeat sshape).2.1.headD 1
  match pd.sliceDirs.head? with
  | none => Except.error "IndexError: tuple index out of range"
  | some gd => Except.ok (groupedSliceListE sl len0 gd (pd.steps.getD gd 1) maxFrames)

/-! ## ProcessDistributor: `_get_slice_list_per_process` -/

/-- The size of partition `i` of `np.array_split(np.arange(B), P)`:
the first `B % P` partitions get `B / P + 1` items, the rest `B / P`. -/
def splitSize (B P i : Nat) : Nat :=
  B / P + if i < B % P then 1 else 0

/-- The first frame index owned by rank `r`: the sizes of all earlier
partitions summed. -/
def splitOffset (B P r : Nat) : Nat :=
  ((List.range r).map (fun i => splitSize B P i)).sum

/-- `np.array_split(np.arange(B), P)[r]`: the contiguous run of frame
indices owned by rank `r`. -/
def framesFor (B P r : Nat) : List Nat :=
  (List.range (splitSize B P r)).map (fun j => splitOffset B P r + j)

/-- `_get_slice_list_per_process`: rank `r`'s batches are
`slice_list[frames[0] : frames[-1] + 1]`; indexing an empty `frames` raises
`IndexError`, caught and turned into the empty batch list. -/
def sliceListPerProcess {α : Type} (sl : List α) (P r : Nat) : List α :=
  let frames := framesFor sl.length P r
  if h : frames = [] then []
  else (sl.take (frames.getLast h + 1)).drop (frames.head h)

/-! ## Padding state machine: `__set_padding_dict`, `__matching_dims`,
`correct_pad` -/

/-- A raw user padding specification, per the spec's external interface:
"padding_spec: optional per-axis {before, after} replicate amounts". -/
def RawSpec : Type := List (Nat × Pad)
deriving instance DecidableEq, Repr for RawSpec

/-- The per-axis padding directions a built `Padding` object stores. -/
def PadDirs : Type := List (Nat × Pad)
deriving instance DecidableEq, Repr for PadDirs

/-- Modelled from the spec: the `Padding` class of
`savu.data.data_structures.data_add_ons` (not under `src/`) accumulates
per-axis `{before, after}` replicate amounts; adding amounts for a direction
merges with any existing entry for that axis. -/
def addPadDir (b : PadDirs) (d : Nat) (p : Pad) : PadDirs :=
  match b with
  | [] => [(d, p)]
  | (d', p') :: rest =>
      if d' = d then (d', ⟨p'.before + p.before, p'.after + p.after⟩) :: rest
      else (d', p') :: addPadDir rest d p

/-- Modelled from the spec: building a `Padding` object from a raw padding
spec applies each per-axis entry in order (`__set_padding_dict`'s loop
`for key in pad_dict: getattr(padding, key)(pad_dict[key])`). -/
def buildPadding (r : RawSpec) : PadDirs :=
  r.foldl (fun acc dp => addPadDir acc dp.1 dp.2) []

/-- Modelled from the spec: `Padding._pad_direction(str(dir)+'.after.'+str(n))`
adds an after-pad of `n` on direction `dir` (the tail-matching pad). -/
def padAfterDir (b : PadDirs) (d : Nat) (n : Nat) : PadDirs :=
  addPadDir b d ⟨0, n⟩

/-- The value of `pData.padding`: a still-raw user dict, a built `Padding`
object, or `None` (Python falsy; an empty raw dict is also falsy). -/
inductive PadField where
  | nopad : PadField
  | raw (r : RawSpec) : PadField
  | built (b : PadDirs) : PadField
deriving DecidableEq, Repr

/-- The mutable padding state carried on the plugin data object. -/
structure PState where
  padding : PadField
  padDict : Option RawSpec
  endPad : Bool
deriving DecidableEq, Repr

/-- `__set_padding_dict()`: when `pData.padding` is a truthy raw dict (not
yet a `Padding` object), save it into `pad_dict` and replace it by the built
`Padding`; otherwise leave the state unchanged. -/
def setPaddingDict (s : PState) : PState :=
  match s.padding with
  | PadField.raw r =>
      if r.isEmpty then s
      else { s with padDict := some r, padding := PadField.built (buildPadding r) }
  | _ => s

/-- `__matching_dims(pData, slice_list)` with
`diff = max_frames - len(range(sl.start, sl.stop, sl.step))`: set
`end_pad = True`; when the final batch is short (`diff ≠ 0`), install a
temporary after-pad of `diff` on the primary slice direction, creating a
fresh empty `Padding` when none exists.  (A raw, unconverted dict in
`padding` is unreachable here: `__set_padding_dict` ran in
`_get_slice_list_per_process` before any window is processed.) -/
def matchingDims (sliceDir diff : Nat) (s : PState) : PState :=
  let s1 := { s with endPad := true }
  if diff = 0 then s1
  else
    let base : PadDirs := match s1.padding with
      | PadField.built b => b
      | _ => []
    { s1 with padding := PadField.built (padAfterDir base sliceDir diff) }

/-- `correct_pad(pData)`: restore `padding` from the saved raw dict when one
is present (re-running `__set_padding_dict`), otherwise drop the padding
entirely; always clear `end_pad`. -/
def correctPadState (s : PState) : PState :=
  let s1 := match s.padDict with
    | some r =>
        if r.isEmpty then { s with padding := PadField.nopad }
        else setPaddingDict { s with padding := PadField.raw r }
    | none => { s with padding := PadField.nopad }
  { s1 with endPad := false }

/-- Python truthiness of `pData.padding`: `None` and an empty raw dict are
falsy; a `Padding` object is truthy whatever it contains. -/
def padFieldTruthy : PadField → Bool
  | PadField.nopad => false
  | PadField.raw r => !r.isEmpty
  | PadField.built _ => true

/-- The state effect of one `_get_padded_slice_data` /
`_get_unpadded_slice_data` call: run `__matching_dims` when the plugin
demands fixed dimensions; then, mirroring the code's
`if not pData.padding: return ...` line, exit early — skipping
`correct_pad` — when `padding` is falsy at that point; otherwise run
`correct_pad` when `end_pad` was set. -/
def paddedCallState (fixedDims : Bool) (sliceDir diff : Nat) (s : PState) : PState :=
  let s1 := if fixedDims then matchingDims sliceDir diff s else s
  if padFieldTruthy s1.padding = false then s1
  else if s1.endPad then correctPadState s1 else s1

/-- A pristine padding state: `end_pad` clear, and `padding` equal to the
`Padding` built from the saved raw spec (or absent when no spec is saved). -/
def pristine (s : PState) : Prop :=
  s.endPad = false ∧
    ((∃ r, s.padDict = some r ∧ r.isEmpty = false ∧
        s.padding = PadField.built (buildPadding r)) ∨
     (s.padDict = none ∧ s.padding = PadField.nopad))

/-! ## Helper lemmas -/

theorem calcSlicePadding_closed (sl : Sl) (p : Pad) (ds : Int) :
    calcSlicePadding sl p ds =
      (⟨max 0 (sl.start - (p.before : Int)), min ds (sl.stop + (p.after : Int)), sl.step⟩,
       (((p.before : Int) - sl.start).toNat, ((sl.stop + (p.after : Int)) - ds).toNat)) := by
  simp only [calcSlicePadding, Prod.mk.injEq, Sl.mk.injEq, and_true, eq_self_iff_true]
  refine ⟨⟨?_, ?_⟩, ?_, ?_⟩ <;> split <;> omega

theorem npArange_length (s e st : Int) : (npArange s e st).length = arangeLen s e st := by
  unfold npArange
  rw [List.length_map, List.length_range]

theorem npArange_getElem (s e st : Int) (i : Nat) (h : i < (npArange s e st).length) :
    (npArange s e st)[i] = s + st * (i : Int) := by
  unfold npArange
  simp only [List.getElem_map, List.getElem_range]

theorem arangeLen_one (s e : Int) : arangeLen s e 1 = (e - s).toNat := by
  unfold arangeLen
  norm_num

theorem splitOffset_succ (B P r : Nat) :
    splitOffset B P (r + 1) = splitOffset B P r + splitSize B P r := by
  unfold splitOffset
  rw [List.range_succ, List.map_append, List.sum_append]
  simp

theorem splitOffset_formula (B P r : Nat) :
    splitOffset B P r = r * (B / P) + min r (B % P) := by
  induction r with
  | zero => simp [splitOffset]
  | succ n ih =>
      rw [splitOffset_succ, ih]
      unfold splitSize
      rw [Nat.succ_mul]
      by_cases h : n < B % P <;> simp only [h, if_true, if_false] <;> omega

theorem splitOffset_total (B P : Nat) (hP : 1 ≤ P) : splitOffset B P P = B := by
  rw [splitOffset_formula]
  have h1 : P * (B / P) + B % P = B := Nat.div_add_mod B P
  have h2 : B % P < P := Nat.mod_lt B (by omega)
  have h3 : P * (B / P) = (B / P) * P := Nat.mul_comm _ _
  omega

theorem framesFor_nil_iff (B P r : Nat) : framesFor B P r = [] ↔ splitSize B P r = 0 := by
  simp [framesFor]

theorem sliceListPerProcess_eq {α : Type} (sl : List α) (P r : Nat) :
    sliceListPerProcess sl P r =
      (sl.drop (splitOffset sl.length P r)).take (splitSize sl.length P r) := by
  unfold sliceListPerProcess
  cases hs : splitSize sl.length P r with
  | zero =>
      rw [dif_pos ((framesFor_nil_iff _ _ _).2 hs)]
      simp
  | succ n =>
      have hne : framesFor sl.length P r ≠ [] := by
        rw [Ne, framesFor_nil_iff, hs]; omega
      rw [dif_neg hne]
      have hlen : (framesFor sl.length P r).length = n + 1 := by
        simp [framesFor, hs]
      have hhead : (framesFor sl.length P r).head hne = splitOffset sl.length P r := by
        rw [List.head_eq_getElem]
        simp [framesFor, hs]
      have hlast : (framesFor sl.length P r).getLast hne =
          splitOffset sl.length P r + n := by
        rw [List.getLast_eq_getElem]
        simp [framesFor, hs]
      rw [hhead, hlast, List.drop_take]
      congr 1
      omega

theorem join_parts {α : Type} (sl : List α) (P : Nat) (hP : 1 ≤ P) :
    ((List.range P).map (fun r => sliceListPerProcess sl P r)).flatten = sl := by
  have key : ∀ k, ((List.range k).map (fun r =>
      (sl.drop (splitOffset sl.length P r)).take (splitSize sl.length P r))).flatten =
      sl.take (splitOffset sl.length P k) := by
    intro k
    induction k with
    | zero => simp [splitOffset]
    | succ n ih =>
        rw [List.range_succ, List.map_append, List.flatten_append, ih,
          splitOffset_succ, List.take_add]
        simp
  simp only [sliceListPerProcess_eq]
  rw [key P, splitOffset_total _ _ hP, List.take_length]

theorem transpose_map_flatten (c : Nat) (pts : List Int) (f : Nat → Int → Int) :
    (matTranspose ((List.range c).map (fun k => pts.map (fun p => f k p)))
        pts.length).flatten =
      pts.flatMap (fun p => (List.range c).map (fun k => f k p)) := by
  unfold matTranspose
  rw [← List.flatMap_def]
  have hpts : pts.flatMap (fun p => (List.range c).map (fun k => f k p)) =
      ((List.range pts.length).map (fun t => pts.getD t 0)).flatMap
        (fun p => (List.range c).map (fun k => f k p)) := by
    congr 1
    apply List.ext_getElem (by simp)
    intro i h1 h2
    simp [List.getD_eq_getElem, List.getElem?_eq_getElem h1]
  rw [hpts, List.flatMap_map]
  apply List.flatMap_congr
  intro t ht
  rw [List.mem_range] at ht
  rw [List.map_map]
  apply List.map_congr_left
  intro k hk
  simp only [Function.comp_apply]
  rw [List.getD_eq_getElem _ _ (by simp [ht]), List.getD_eq_getElem _ _ ht,
    List.getElem_map]

theorem splitList_cons {α : Type} (m : Nat) (hm : 1 ≤ m) (l : List α) (hl : l ≠ []) :
    splitList l m = l.take m :: splitList (l.drop m) m := by
  have hn : 1 ≤ l.length := List.length_pos.2 hl
  unfold splitList
  rw [if_neg (by omega), if_neg (by omega)]
  have hcount : (l.length + m - 1) / m = ((l.drop m).length + m - 1) / m + 1 := by
    rw [List.length_drop]
    rcases le_or_lt l.length m with hle | hlt
    · have h1 : l.length - m = 0 := by omega
      rw [h1]
      have h2 : (l.length + m - 1) / m = 1 :=
        Nat.div_eq_of_lt_le (by omega) (by omega)
      have h3 : (0 + m - 1) / m = 0 := Nat.div_eq_of_lt (by omega)
      omega
    · rw [show l.length + m - 1 = (l.length - m + m - 1) + m by omega,
        Nat.add_div_right _ (by omega)]
  rw [hcount, List.range_succ_eq_map, List.map_cons, List.map_map]
  congr 1
  · simp
  · apply List.map_congr_left
    intro k _
    simp only [Function.comp_apply, Nat.succ_eq_add_one]
    rw [List.drop_drop]
    congr 2
    ring

theorem splitList_flatten_aux {α : Type} (m : Nat) (hm : 1 ≤ m) :
    ∀ (fuel : Nat) (l : List α), l.length ≤ fuel → (splitList l m).flatten = l := by
  intro fuel
  induction fuel with
  | zero =>
      intro l hl
      have : l = [] := List.length_eq_zero.1 (by omega)
      subst this
      simp [splitList]
  | succ f ihf =>
      intro l hl
      rcases eq_or_ne l [] with rfl | hne
      · simp [splitList]
      · rw [splitList_cons m hm l hne, List.flatten_cons,
          ihf (l.drop m) (by rw [List.length_drop]; have := List.length_pos.2 hne; omega),
          List.take_append_drop]

theorem splitList_flatten {α : Type} (m : Nat) (hm : 1 ≤ m) (l : List α) :
    (splitList l m).flatten = l :=
  splitList_flatten_aux m hm l.length l le_rfl

theorem splitList_mem {α : Type} (l : List α) (m : Nat) (hm : 1 ≤ m)
    (sub : List α) (hs : sub ∈ splitList l m) : sub ≠ [] ∧ sub.length ≤ m := by
  unfold splitList at hs
  rw [if_neg (by omega)] at hs
  obtain ⟨k, hk, rfl⟩ := List.mem_map.1 hs
  rw [List.mem_range] at hk
  have hpos : 0 < l.length := by
    by_contra hcon
    have hz : l.length = 0 := by omega
    rw [hz] at hk
    have : (0 + m - 1) / m = 0 := Nat.div_eq_of_lt (by omega)
    omega
  have hkm : k * m < l.length := by
    have h1 : (k + 1) * m ≤ (l.length + m - 1) / m * m :=
      Nat.mul_le_mul_right _ hk
    have h2 : (l.length + m - 1) / m * m ≤ l.length + m - 1 :=
      Nat.div_mul_le_self _ _
    rw [Nat.succ_mul] at h1
    omega
  constructor
  · intro hcon
    have := congrArg List.length hcon
    rw [List.length_take, List.length_drop] at this
    simp only [List.length_nil] at this
    omega
  · rw [List.length_take]
    exact min_le_left _ _

theorem set_eq_range_map (l : List Sel) (n : Nat) (a : Sel) :
    l.set n a = (List.range l.length).map
      (fun i => if i = n then a else l.getD i Sel.all) := by
  apply List.ext_getElem (by simp)
  intro i h1 h2
  rw [List.length_set] at h1
  rw [List.getElem_set, List.getElem_map, List.getElem_range,
    List.getD_eq_getElem _ _ h1]
  by_cases hin : i = n
  · rw [if_pos hin, if_pos hin.symm]
  · rw [if_neg hin, if_neg (fun hc => hin hc.symm)]

theorem unpaddedAxis_eq (q : Pad) (bl : List Int) :
    unpaddedAxis q bl = (bl.take (bl.length - q.after)).drop (min q.before bl.length) := by
  unfold unpaddedAxis pySlice1 pyNorm
  by_cases h0 : q.after = 0
  · rw [if_pos h0]
    dsimp only
    rw [if_neg (show ¬((bl.length : Int) < 0) by omega)]
    rw [if_neg (show ¬((q.before : Int) < 0) by omega)]
    have e1 : min ((bl.length : Int)).toNat bl.length = bl.length - q.after := by omega
    have e2 : min ((q.before : Int)).toNat bl.length = min q.before bl.length := by omega
    rw [e1, e2]
  · rw [if_neg h0]
    dsimp only
    rw [if_pos (show (-(q.after : Int)) < 0 by omega)]
    rw [if_neg (show ¬((q.before : Int) < 0) by omega)]
    have e3 : ((bl.length : Int) + -(q.after : Int)).toNat = bl.length - q.after := by
      omega
    have e4 : min ((q.before : Int)).toNat bl.length = min q.before bl.length := by omega
    rw [e3, e4]

theorem edgePadIndices_zero (idxs : List Int) : edgePadIndices idxs (0, 0) = idxs := by
  unfold edgePadIndices
  by_cases h : idxs = []
  · rw [dif_pos h, h]
  · rw [dif_neg h]
    simp

theorem paddedAxis_noclip (sl : Sl) (p : Pad) (ext : Nat)
    (h3 : 0 ≤ sl.start - (p.before : Int))
    (h4 : sl.stop + (p.after : Int) ≤ (ext : Int)) :
    paddedAxis sl p ext =
      npArange (sl.start - (p.before : Int)) (sl.stop + (p.after : Int)) sl.step := by
  unfold paddedAxis
  have hcalc : calcSlicePadding sl p (ext : Int) =
      (⟨sl.start - (p.before : Int), sl.stop + (p.after : Int), sl.step⟩, (0, 0)) := by
    rw [calcSlicePadding_closed]
    simp only [Prod.mk.injEq, Sl.mk.injEq, and_true, eq_self_iff_true]
    refine ⟨⟨?_, ?_⟩, ?_, ?_⟩
    · rw [max_eq_right h3]
    · rw [min_eq_right h4]
    · omega
    · omega
  rw [hcalc, edgePadIndices_zero]
  rfl

theorem axis_roundtrip (sl : Sl) (p : Pad) (ext : Nat)
    (h1 : sl.step = 1) (h2 : sl.start ≤ sl.stop)
    (h3 : 0 ≤ sl.start - (p.before : Int))
    (h4 : sl.stop + (p.after : Int) ≤ (ext : Int)) :
    unpaddedAxis p (paddedAxis sl p ext) = sliceIndices sl := by
  rw [paddedAxis_noclip sl p ext h3 h4, h1, unpaddedAxis_eq]
  have hL : (npArange (sl.start - (p.before : Int)) (sl.stop + (p.after : Int)) 1).length =
      (sl.stop + (p.after : Int) - (sl.start - (p.before : Int))).toNat := by
    rw [npArange_length, arangeLen_one]
  have hb : min p.before
      (npArange (sl.start - (p.before : Int)) (sl.stop + (p.after : Int)) 1).length =
      p.before := by
    rw [hL]
    omega
  rw [hb]
  unfold sliceIndices
  rw [h1]
  apply List.ext_getElem
  · rw [List.length_drop, List.length_take, hL, npArange_length, arangeLen_one]
    omega
  · intro i hi1 hi2
    rw [List.getElem_drop, List.getElem_take, npArange_getElem, npArange_getElem]
    push_cast
    ring

theorem getD_range_map {β : Type} (n : Nat) (f : Nat → β) (d : β) (i : Nat) (h : i < n) :
    ((List.range n).map f).getD i d = f i := by
  rw [List.getD_eq_getElem _ _ (by simp [h]), List.getElem_map, List.getElem_range]

theorem repeatEach_length (c : Nat) (xs : List Int) :
    (repeatEach c xs).length = xs.length * c := by
  unfold repeatEach
  rw [List.length_flatMap]
  have : List.map (List.length ∘ fun v => List.replicate c v) xs =
      List.map (Function.const Int c) xs := by
    apply List.map_congr_left
    intro a _
    simp
  rw [this, List.map_const, List.sum_replicate, smul_eq_mul]

theorem repeatEach_getD (c : Nat) (xs : List Int) (t : Nat) (h : t < xs.length * c) :
    (repeatEach c xs).getD t 0 = xs.getD (t / c) 0 := by
  induction xs generalizing t with
  | nil => simp at h
  | cons x xs ih =>
      have hc : 0 < c := by
        rcases Nat.eq_zero_or_pos c with hc | hc
        · rw [hc, Nat.mul_zero] at h; omega
        · exact hc
      rw [show repeatEach c (x :: xs) = List.replicate c x ++ repeatEach c xs from
        List.flatMap_cons x xs _]
      by_cases ht : t < c
      · rw [List.getD_eq_getElem _ _ (by
          rw [List.length_append, List.length_replicate, repeatEach_length]; omega)]
        rw [List.getElem_append_left (by rw [List.length_replicate]; exact ht)]
        rw [List.getElem_replicate, Nat.div_eq_of_lt ht, List.getD_cons_zero]
      · have hlen : t - c < xs.length * c := by
          rw [List.length_cons, Nat.succ_mul] at h
          omega
        have happ : (List.replicate c x ++ repeatEach c xs).getD t 0 =
            (repeatEach c xs).getD (t - c) 0 := by
          rcases Nat.lt_or_ge t (c + (repeatEach c xs).length) with hin | hout
          · rw [List.getD_eq_getElem _ _ (by
              rw [List.length_append, List.length_replicate]; omega)]
            rw [List.getElem_append_right (by rw [List.length_replicate]; omega)]
            simp only [List.length_replicate]
            rw [List.getD_eq_getElem _ _ (by rw [repeatEach_length] at *; omega)]
          · rw [List.getD_eq_default _ _ (by
              rw [List.length_append, List.length_replicate]; omega),
              List.getD_eq_default _ _ (by omega)]
        rw [happ, ih (t - c) hlen]
        have hdiv : t / c = (t - c) / c + 1 := by
          conv_lhs => rw [show t = (t - c) + c by omega]
          rw [Nat.add_div_right _ hc]
        rw [hdiv, List.getD_cons_succ]

theorem tileList_length (r : Nat) (xs : List Int) :
    (tileList r xs).length = r * xs.length := by
  unfold tileList
  rw [List.length_flatten, List.map_replicate, List.sum_replicate, smul_eq_mul]

theorem tileList_getD (r : Nat) (xs : List Int) (t : Nat) (h : t < r * xs.length) :
    (tileList r xs).getD t 0 = xs.getD (t % xs.length) 0 := by
  induction r generalizing t with
  | zero => simp at h
  | succ r ih =>
      have hxs : 0 < xs.length := by
        rcases Nat.eq_zero_or_pos xs.length with hz | hp
        · rw [hz, Nat.mul_zero] at h; omega
        · exact hp
      rw [show tileList (r + 1) xs = xs ++ tileList r xs by
        unfold tileList; rw [List.replicate_succ, List.flatten_cons]]
      by_cases ht : t < xs.length
      · rw [List.getD_eq_getElem _ _ (by rw [List.length_append]; omega)]
        rw [List.getElem_append_left ht, Nat.mod_eq_of_lt ht,
          List.getD_eq_getElem _ _ ht]
      · have hlen : t - xs.length < r * xs.length := by
          rw [Nat.succ_mul] at h
          omega
        have happ : (xs ++ tileList r xs).getD t 0 =
            (tileList r xs).getD (t - xs.length) 0 := by
          rcases Nat.lt_or_ge t (xs.length + (tileList r xs).length) with hin | hout
          · rw [List.getD_eq_getElem _ _ (by rw [List.length_append]; omega)]
            rw [List.getElem_append_right (by omega)]
            rw [List.getD_eq_getElem _ _ (by rw [tileList_length] at *; omega)]
          · rw [List.getD_eq_default _ _ (by rw [List.length_append]; omega),
              List.getD_eq_default _ _ (by omega)]
        rw [happ, ih (t - xs.length) hlen]
        congr 1
        conv_rhs => rw [show t = (t - xs.length) + xs.length by omega]
        rw [Nat.add_mod_right]

theorem kronRavelOnes_length (v : List Int) (r c : Nat) :
    (kronRavelOnes v r c).length = r * (v.length * c) := by
  unfold kronRavelOnes
  rw [tileList_length, repeatEach_length]

theorem kronRavelOnes_getD (v : List Int) (r c t : Nat) (h : t < r * (v.length * c))
    (hc : 0 < c) :
    (kronRavelOnes v r c).getD t 0 = v.getD (t / c % v.length) 0 := by
  unfold kronRavelOnes
  rw [tileList_getD r _ t (by rw [repeatEach_length]; exact h), repeatEach_length]
  have hvl : 0 < v.length := by
    rcases Nat.eq_zero_or_pos v.length with hz | hp
    · rw [hz] at h; simp at h
    · exact hp
  rw [repeatEach_getD c v _ (Nat.mod_lt _ (by positivity))]
  congr 1
  rw [Nat.mul_comm v.length c, Nat.mod_mul_right_div_self]

theorem flatMap_cons_length (v : List Int) (outer : List (List Int)) :
    (outer.flatMap (fun tail => v.map (fun x => x :: tail))).length =
      outer.length * v.length := by
  rw [List.length_flatMap]
  have : List.map (List.length ∘ fun tail => v.map (fun x => x :: tail)) outer =
      List.map (Function.const (List Int) v.length) outer := by
    apply List.map_congr_left
    intro a _
    simp
  rw [this, List.map_const, List.sum_replicate, smul_eq_mul]

theorem flatMap_cons_getD (v : List Int) (outer : List (List Int)) (t : Nat)
    (h : t < outer.length * v.length) :
    (outer.flatMap (fun tail => v.map (fun x => x :: tail))).getD t [] =
      v.getD (t % v.length) 0 :: outer.getD (t / v.length) [] := by
  induction outer generalizing t with
  | nil => simp at h
  | cons tl outer ih =>
      have hv : 0 < v.length := by
        rcases Nat.eq_zero_or_pos v.length with hz | hp
        · rw [hz, Nat.mul_zero] at h; omega
        · exact hp
      rw [List.flatMap_cons]
      by_cases ht : t < v.length
      · rw [List.getD_eq_getElem _ _ (by
          rw [List.length_append, List.length_map]; omega)]
        rw [List.getElem_append_left (by rw [List.length_map]; exact ht)]
        rw [List.getElem_map]
        rw [Nat.mod_eq_of_lt ht, Nat.div_eq_of_lt ht,
          List.getD_eq_getElem _ _ ht, List.getD_cons_zero]
      · have hlen : t - v.length < outer.length * v.length := by
          rw [List.length_cons, Nat.succ_mul] at h
          omega
        have happ : ((v.map (fun x => x :: tl)) ++
            outer.flatMap (fun tail => v.map (fun x => x :: tail))).getD t [] =
            (outer.flatMap (fun tail => v.map (fun x => x :: tail))).getD
              (t - v.length) [] := by
          rcases Nat.lt_or_ge t
            (v.length + (outer.flatMap (fun tail => v.map (fun x => x :: tail))).length)
            with hin | hout
          · rw [List.getD_eq_getElem _ _ (by
              rw [List.length_append, List.length_map]; omega)]
            rw [List.getElem_append_right (by rw [List.length_map]; omega)]
            simp only [List.length_map]
            rw [List.getD_eq_getElem _ _ (by rw [flatMap_cons_length] at *; omega)]
          · rw [List.getD_eq_default _ _ (by
              rw [List.length_append, List.length_map]; omega),
              List.getD_eq_default _ _ (by omega)]
        rw [happ, ih (t - v.length) hlen]
        have hmod : (t - v.length) % v.length = t % v.length := by
          conv_rhs => rw [show t = (t - v.length) + v.length by omega]
          rw [Nat.add_mod_right]
        have hdiv : t / v.length = (t - v.length) / v.length + 1 := by
          conv_lhs => rw [show t = (t - v.length) + v.length by omega]
          rw [Nat.add_div_right _ hv]
        rw [hmod, hdiv, List.getD_cons_succ]

theorem cartProd_length (vss : List (List Int)) :
    (cartProd vss).length = (vss.map List.length).prod := by
  induction vss with
  | nil => rfl
  | cons v rest ih =>
      show ((cartProd rest).flatMap (fun tail => v.map (fun x => x :: tail))).length = _
      rw [flatMap_cons_length, ih, List.map_cons, List.prod_cons, Nat.mul_comm]

theorem cartProd_getD (vss : List (List Int)) (t : Nat)
    (h : t < (vss.map List.length).prod) :
    (cartProd vss).getD t [] = tupleAt vss t := by
  induction vss generalizing t with
  | nil =>
      simp only [List.map_nil, List.prod_nil] at h
      have : t = 0 := by omega
      subst this
      rfl
  | cons v rest ih =>
      rw [List.map_cons, List.prod_cons] at h
      have hv : 0 < v.length := by
        rcases Nat.eq_zero_or_pos v.length with hz | hp
        · rw [hz, Nat.zero_mul] at h; omega
        · exact hp
      show ((cartProd rest).flatMap (fun tail => v.map (fun x => x :: tail))).getD t [] = _
      rw [flatMap_cons_getD v (cartProd rest) t
        (by rw [cartProd_length, Nat.mul_comm]; exact h)]
      rw [ih (t / v.length) ((Nat.div_lt_iff_lt_mul hv).2 (by rw [Nat.mul_comm]; exact h))]
      rfl

theorem prod_decomp (ls : List Nat) (i : Nat) (h : i < ls.length) :
    (ls.drop (i + 1)).prod * (ls.getD i 0 * (ls.take i).prod) = ls.prod := by
  conv_rhs => rw [← List.take_append_drop i ls]
  rw [List.prod_append, List.drop_eq_getElem_cons h, List.prod_cons,
    List.getD_eq_getElem _ _ h]
  ring

theorem sliceDirsIndexOf_length (vss : List (List Int)) (sshape : List Nat) :
    (sliceDirsIndexOf vss sshape).length = vss.length := by
  unfold sliceDirsIndexOf
  rw [List.length_map, List.length_range]

theorem sliceDirsIndexOf_getD (vss : List (List Int)) (i : Nat) (hi : i < vss.length)
    (hne : vss ≠ []) :
    (sliceDirsIndexOf vss (vss.map List.length)).getD i [] =
      kronRavelOnes (vss.getD i []) ((vss.map List.length).drop (i + 1)).prod
        ((vss.map List.length).take i).prod := by
  unfold sliceDirsIndexOf chunkLengthRepeat
  rw [if_neg (by simp [hne])]
  dsimp only
  rw [getD_range_map _ _ _ _ hi]
  rw [getD_range_map _ _ _ _ (by rw [List.length_map]; exact hi)]
  rw [getD_range_map _ _ _ _ (by rw [List.length_map]; exact hi)]

theorem tupleAt_length (vss : List (List Int)) (t : Nat) :
    (tupleAt vss t).length = vss.length := by
  induction vss generalizing t with
  | nil => rfl
  | cons v rest ih =>
      show (v.getD (t % v.length) 0 :: tupleAt rest (t / v.length)).length = _
      rw [List.length_cons, ih, List.length_cons]

theorem tupleAt_getD (vss : List (List Int)) (t i : Nat) (hi : i < vss.length) :
    (tupleAt vss t).getD i 0 =
      (vss.getD i []).getD
        (t / ((vss.map List.length).take i).prod % (vss.getD i []).length) 0 := by
  induction vss generalizing t i with
  | nil => simp at hi
  | cons v rest ih =>
      cases i with
      | zero =>
          show (v.getD (t % v.length) 0 :: tupleAt rest (t / v.length)).getD 0 0 = _
          rw [List.getD_cons_zero, List.take_zero, List.prod_nil, Nat.div_one,
            List.getD_cons_zero]
      | succ i =>
          show (v.getD (t % v.length) 0 :: tupleAt rest (t / v.length)).getD (i + 1) 0 = _
          rw [List.getD_cons_succ]
          rw [ih (t / v.length) i (by rw [List.length_cons] at hi; omega)]
          rw [List.map_cons, List.take_succ_cons, List.prod_cons,
            ← Nat.div_div_eq_div_mul]
          simp only [List.getD_cons_succ]

/-! ## Claim theorems -/

/-- Claim C2 (confirmed): for every grouped slice list and rank count `P ≥ 1`,
the per-rank batch lists of `_get_slice_list_per_process` are the contiguous
`drop/take` segments cut at the `np.array_split` offsets, their in-order
concatenation reconstructs the original list (hence they are pairwise
disjoint), a rank whose segment starts at or beyond the end receives the
empty list, the sizes for 9 batches over 4 ranks are `[3, 2, 2, 2]`, and
rank 3 owns the last two frame indices `[7, 8]`. -/
theorem slice_list_per_process_partition {α : Type} (sl : List α) (P : Nat) (hP : 1 ≤ P) :
    ((List.range P).map (fun r => sliceListPerProcess sl P r)).flatten = sl ∧
    (∀ r, sliceListPerProcess sl P r =
      (sl.drop (splitOffset sl.length P r)).take (splitSize sl.length P r)) ∧
    (∀ r, sl.length ≤ splitOffset sl.length P r → sliceListPerProcess sl P r = []) ∧
    (List.range 4).map (fun i => splitSize 9 4 i) = [3, 2, 2, 2] ∧
    framesFor 9 4 3 = [7, 8] := by
  refine ⟨join_parts sl P hP, fun r => sliceListPerProcess_eq sl P r, ?_, by decide, by decide⟩
  intro r hr
  rw [sliceListPerProcess_eq, List.drop_eq_nil_of_le hr, List.take_nil]

/-- Witness for C2: the 9-batches-over-4-ranks scenario. -/
theorem slice_list_per_process_partition_witness :
    ((List.range 4).map (fun r =>
      sliceListPerProcess [0, 1, 2, 3, 4, 5, 6, 7, 8] 4 r)).flatten =
      [0, 1, 2, 3, 4, 5, 6, 7, 8] ∧
    (∀ r, sliceListPerProcess [0, 1, 2, 3, 4, 5, 6, 7, 8] 4 r =
      (([0, 1, 2, 3, 4, 5, 6, 7, 8].drop (splitOffset 9 4 r)).take (splitSize 9 4 r) :
        List Nat)) ∧
    (∀ r, 9 ≤ splitOffset 9 4 r →
      sliceListPerProcess ([0, 1, 2, 3, 4, 5, 6, 7, 8] : List Nat) 4 r = []) ∧
    (List.range 4).map (fun i => splitSize 9 4 i) = [3, 2, 2, 2] ∧
    framesFor 9 4 3 = [7, 8] :=
  slice_list_per_process_partition [0, 1, 2, 3, 4, 5, 6, 7, 8] 4 (by decide)

/-- Counterexample to claim C4 as stated: padding the window `slice(0, 5, 1)`
on an axis of extent 10 with a requested before-pad of 3 yields an actual
before-pad of 3 (the clipped-off amount, to be edge-replicated), not 0, and
the materialized block IS padded on that side: its first three entries are
replications of the edge row 0. -/
theorem boundary_clamp_counterexample :
    (calcSlicePadding ⟨0, 5, 1⟩ ⟨3, 0⟩ 10).2.1 = 3 ∧
    (calcSlicePadding ⟨0, 5, 1⟩ ⟨3, 0⟩ 10).2.1 ≠ 0 ∧
    paddedAxis ⟨0, 5, 1⟩ ⟨3, 0⟩ 10 = [0, 0, 0, 0, 1, 2, 3, 4] := by
  decide

/-- Claim C4 (corrected): padding a window whose pad-extended start would be
negative clips the read window to start 0 and turns the clipped-off amount
`before - start` into an edge-replicate pad on that side, so the materialized
block is `replicate (before - start) data[0]` followed by the clipped read —
padded by replication, not unpadded. -/
theorem boundary_clamp_replicates (sl : Sl) (p : Pad) (ext : Nat)
    (h0 : 0 ≤ sl.start) (h1 : sl.start < (p.before : Int))
    (h2 : sl.stop + (p.after : Int) ≤ (ext : Int)) (h3 : sl.start < sl.stop)
    (h4 : 1 ≤ sl.step) :
    calcSlicePadding sl p (ext : Int) =
      (⟨0, sl.stop + (p.after : Int), sl.step⟩, (((p.before : Int) - sl.start).toNat, 0)) ∧
    paddedAxis sl p ext =
      List.replicate ((p.before : Int) - sl.start).toNat 0 ++
        npArange 0 (sl.stop + (p.after : Int)) sl.step := by
  have hcalc : calcSlicePadding sl p (ext : Int) =
      (⟨0, sl.stop + (p.after : Int), sl.step⟩,
       (((p.before : Int) - sl.start).toNat, 0)) := by
    rw [calcSlicePadding_closed]
    simp only [Prod.mk.injEq, Sl.mk.injEq, and_true, eq_self_iff_true]
    refine ⟨⟨?_, ?_⟩, trivial, ?_⟩
    · rw [max_eq_left (by omega)]
    · rw [min_eq_right (by omega)]
    · omega
  refine ⟨hcalc, ?_⟩
  unfold paddedAxis
  rw [hcalc]
  have hlen2 : (sliceIndices ⟨0, sl.stop + (p.after : Int), sl.step⟩).length =
      arangeLen 0 (sl.stop + (p.after : Int)) sl.step :=
    npArange_length _ _ _
  have hlenpos : 0 < (sliceIndices ⟨0, sl.stop + (p.after : Int), sl.step⟩).length := by
    rw [hlen2]
    unfold arangeLen
    rw [if_neg (by omega)]
    have hq : 1 ≤ (sl.stop + (p.after : Int) - 0 + sl.step - 1) / sl.step :=
      (Int.le_ediv_iff_mul_le (by omega)).2 (by omega)
    omega
  have hne : sliceIndices ⟨0, sl.stop + (p.after : Int), sl.step⟩ ≠ [] := by
    intro hcon
    rw [hcon] at hlenpos
    simp at hlenpos
  unfold edgePadIndices
  rw [dif_neg hne]
  have hhead : (sliceIndices ⟨0, sl.stop + (p.after : Int), sl.step⟩).head hne = 0 := by
    rw [List.head_eq_getElem]
    have := npArange_getElem 0 (sl.stop + (p.after : Int)) sl.step 0
      (by rw [npArange_length]; rw [hlen2] at hlenpos; exact hlenpos)
    simp only [Int.ofNat_zero, mul_zero, add_zero] at this
    exact this
  rw [hhead]
  have hlast : List.replicate (0 : Nat)
      ((sliceIndices ⟨0, sl.stop + (p.after : Int), sl.step⟩).getLast hne) = [] := rfl
  rw [hlast, List.append_nil]
  rfl

/-- Witness for C4: the boundary-clamp scenario from the spec —
window starting at 0, requested before-pad 3, axis extent 10. -/
theorem boundary_clamp_replicates_witness :
    calcSlicePadding ⟨0, 5, 1⟩ ⟨3, 0⟩ ((10 : Nat) : Int) =
      (⟨0, (5 : Int) + ((0 : Nat) : Int), 1⟩, ((((3 : Nat) : Int) - 0).toNat, 0)) ∧
    paddedAxis ⟨0, 5, 1⟩ ⟨3, 0⟩ 10 =
      List.replicate (((3 : Nat) : Int) - (0 : Int)).toNat 0 ++
        npArange 0 ((5 : Int) + ((0 : Nat) : Int)) 1 :=
  boundary_clamp_replicates ⟨0, 5, 1⟩ ⟨3, 0⟩ 10 (by decide) (by decide) (by decide)
    (by decide) (by decide)

/-- Counterexample to claim C8 as stated: `__calculate_slice_padding` applied
to the reversed input window `slice(5, 2, 1)` (no padding, extent 10) clips
to `lo = 5 > 2 = hi` and silently returns the reversed slice — the function
contains no `lo > hi` check and never raises. -/
theorem slice_padding_no_reversed_check :
    calcSlicePadding ⟨5, 2, 1⟩ ⟨0, 0⟩ 10 = (⟨5, 2, 1⟩, (0, 0)) ∧ (2 : Int) < 5 := by
  decide

/-- Claim C8 (corrected): `__calculate_slice_padding` is total — for every
input it returns the clamped slice
`(max 0 (start - before), min extent (stop + after), step)` together with the
clipped-off amounts, raising no error; when the clamped bounds satisfy
`lo > hi` the reversed range is returned unchanged. -/
theorem slice_padding_total_clamp (sl : Sl) (p : Pad) (ds : Int) :
    calcSlicePadding sl p ds =
      (⟨max 0 (sl.start - (p.before : Int)), min ds (sl.stop + (p.after : Int)), sl.step⟩,
       (((p.before : Int) - sl.start).toNat, ((sl.stop + (p.after : Int)) - ds).toNat)) :=
  calcSlicePadding_closed sl p ds

/-- Claim C10 (confirmed): in `_get_unpadded_slice_data`, an axis whose
`after` pad is 0 gets crop stop equal to the padded block's full extent
(`slice(before, block_extent, 1)` rather than `-0`), so the crop keeps the
whole tail and is nonempty whenever `before` is inside the block; only when
`after > 0` is the crop stop `extent - after`. -/
theorem unpadded_crop_zero_after (p : Pad) (block : List Int)
    (h0 : p.after = 0) (hb : p.before < block.length) :
    unpaddedAxis p block = block.drop p.before ∧
    unpaddedAxis p block ≠ [] ∧
    (∀ (q : Pad) (bl : List Int), 0 < q.after →
      unpaddedAxis q bl = (bl.take (bl.length - q.after)).drop q.before) := by
  have hmain : unpaddedAxis p block = block.drop p.before := by
    unfold unpaddedAxis pySlice1 pyNorm
    rw [if_pos h0]
    dsimp only
    rw [if_neg (show ¬((block.length : Int) < 0) by omega)]
    rw [if_neg (show ¬((p.before : Int) < 0) by omega)]
    have e1 : min ((block.length : Int)).toNat block.length = block.length := by omega
    have e2 : min ((p.before : Int)).toNat block.length = p.before := by omega
    rw [e1, e2, List.take_length]
  refine ⟨hmain, ?_, ?_⟩
  · rw [hmain]
    intro hcon
    have := congrArg List.length hcon
    rw [List.length_drop] at this
    simp at this
    omega
  · intro q bl hq
    unfold unpaddedAxis pySlice1 pyNorm
    rw [if_neg (show ¬(q.after = 0) by omega)]
    dsimp only
    rw [if_pos (show (-(q.after : Int)) < 0 by omega)]
    rw [if_neg (show ¬((q.before : Int) < 0) by omega)]
    have e3 : ((bl.length : Int) + -(q.after : Int)).toNat = bl.length - q.after := by
      omega
    have e4 : min ((q.before : Int)).toNat bl.length = min q.before bl.length := by
      omega
    rw [e3, e4]
    by_cases hqb : q.before ≤ bl.length
    · rw [min_eq_left hqb]
    · rw [min_eq_right (by omega)]
      rw [List.drop_eq_nil_of_le (by rw [List.length_take]; omega),
        List.drop_eq_nil_of_le (by rw [List.length_take]; omega)]

/-- Witness for C10: `after = 0`, `before = 2` on a block of extent 3. -/
theorem unpadded_crop_zero_after_witness :
    unpaddedAxis ⟨2, 0⟩ [5, 6, 7] = ([5, 6, 7] : List Int).drop 2 ∧
    unpaddedAxis ⟨2, 0⟩ ([5, 6, 7] : List Int) ≠ [] ∧
    (∀ (q : Pad) (bl : List Int), 0 < q.after →
      unpaddedAxis q bl = (bl.take (bl.length - q.after)).drop q.before) :=
  unpadded_crop_zero_after ⟨2, 0⟩ [5, 6, 7] rfl (by decide)

/-- Claim C7 (code bug): on a pattern that declares no slice axes (here:
shape `(3, 4)`, no core axes, axis 0 fixed at value 1), `_single_slice_list`
returns a list — never `None` — so `_get_grouped_slice_list`'s
`if sl is None` guard that would raise the unsupported-pattern error is dead
code, and the call instead fails with a bare `IndexError` when
`get_slice_directions()[0]` is evaluated on the empty tuple of slice
directions. -/
theorem grouped_slice_list_no_slice_axes_bug :
    singleSliceList ⟨[3, 4], [], [], [0], [1], [0, 0], [3, 4], [1, 1], [1, 1]⟩ =
      Except.ok [[Sel.sl ⟨1, 2, 1⟩, Sel.all]] ∧
    getGroupedSliceList ⟨[3, 4], [], [], [0], [1], [0, 0], [3, 4], [1, 1], [1, 1]⟩ 1 =
      Except.error "IndexError: tuple index out of range" := by
  constructor <;> rfl

/-- Claim C5 (confirmed): a call to the padded-read state machine from any
pristine padding state always leaves the padding directions and the saved
raw spec exactly as they were — the spec is never left tail-matched across
calls.  Whenever a temporary after-pad was actually installed (a short batch,
`diff ≠ 0`), or a padding spec exists, or the tail-matching path did not run,
the whole state — `end_pad` included — is restored, the temporary pad undone
by `correct_pad`.  In the one remaining case (`fixed_dims` set, a full batch
`diff = 0`, and no padding at all) the code's
`if not pData.padding: return` early exit skips `correct_pad` and only the
`end_pad` flag is left set; no pad was installed there, so the padding spec
itself is still pristine. -/
theorem padding_state_restored (s : PState) (fd : Bool) (sd diff : Nat)
    (hs : pristine s) :
    (paddedCallState fd sd diff s).padding = s.padding ∧
    (paddedCallState fd sd diff s).padDict = s.padDict ∧
    ((fd = false ∨ diff ≠ 0 ∨ s.padDict ≠ none) → paddedCallState fd sd diff s = s) ∧
    ((fd = true ∧ diff = 0 ∧ s.padDict = none) →
      paddedCallState fd sd diff s = { s with endPad := true }) := by
  obtain ⟨he, hcase⟩ := hs
  cases s with
  | mk pad dict ep =>
      simp only at he
      subst he
      cases fd with
      | false =>
          rcases hcase with ⟨r, hd, hne, hp⟩ | ⟨hd, hp⟩
          · simp only at hd hp
            subst hd
            subst hp
            unfold paddedCallState padFieldTruthy
            simp [hne]
          · simp only at hd hp
            subst hd
            subst hp
            unfold paddedCallState padFieldTruthy
            simp
      | true =>
          rcases hcase with ⟨r, hd, hne, hp⟩ | ⟨hd, hp⟩
          · simp only at hd hp
            subst hd
            subst hp
            unfold paddedCallState matchingDims correctPadState setPaddingDict
              padFieldTruthy
            by_cases hdiff : diff = 0 <;> simp [hdiff, hne]
          · simp only at hd hp
            subst hd
            subst hp
            unfold paddedCallState matchingDims correctPadState setPaddingDict
              padFieldTruthy
            by_cases hdiff : diff = 0 <;> simp [hdiff]

/-- Counterexample to claim C1 as stated: for two slice axes with raw index
sequences `[0,1,2]` and `[0,1]` (slice-dimension shape `[3,2]`),
`__get_slice_dirs_index` produces axis-0 array `[0,1,2,0,1,2]` — each value
repeated `chunk[0] = 1` times and tiled `repeat[0] = 2` times — whereas the
claim's construction (repeat each value `repeat[0] = 2` times, tile the
block `chunk[0] = 1` times) would give `[0,0,1,1,2,2]`.  The first slice
axis therefore varies fastest, not slowest. -/
theorem slice_dirs_index_counterexample :
    (sliceDirsIndexOf [[0, 1, 2], [0, 1]] [3, 2]).getD 0 [] = [0, 1, 2, 0, 1, 2] ∧
    specClaimAxis [[0, 1, 2], [0, 1]] [3, 2] 0 = [0, 0, 1, 1, 2, 2] ∧
    (sliceDirsIndexOf [[0, 1, 2], [0, 1]] [3, 2]).getD 0 [] ≠
      specClaimAxis [[0, 1, 2], [0, 1]] [3, 2] 0 ∧
    matTranspose (sliceDirsIndexOf [[0, 1, 2], [0, 1]] [3, 2]) 6 =
      [[0, 0], [1, 0], [2, 0], [0, 1], [1, 1], [2, 1]] := by
  refine ⟨by rfl, by rfl, by decide, by rfl⟩

/-- Claim C1 (corrected): the windows of `_single_slice_list` enumerate the
Cartesian product of the per-axis index sequences with the FIRST slice axis
varying fastest (innermost loop): reading the tiled index matrix of
`__get_slice_dirs_index` column by column yields exactly the `cartProd`
enumeration, whose position-`t` tuple assigns axis `i` the value
`values_i[(t / prod of earlier lengths) % len_i]`.  Equivalently, axis `i`'s
array repeats each raw value `chunk[i]` times (product of the lengths BEFORE
`i`) and tiles that block `repeat[i]` times (product of the lengths AFTER
`i`) — the transpose of what the claim states. -/
theorem slice_dirs_index_cartesian (vss : List (List Int)) (sshape : List Nat)
    (hlen : sshape = vss.map List.length) :
    matTranspose (sliceDirsIndexOf vss sshape) ((vss.map List.length).prod) =
      cartProd vss := by
  subst hlen
  rcases eq_or_ne vss [] with rfl | hne
  · rfl
  · apply List.ext_getElem
    · unfold matTranspose
      rw [List.length_map, List.length_range, cartProd_length]
    · intro t ht1 ht2
      have htN : t < (vss.map List.length).prod := by
        unfold matTranspose at ht1
        rw [List.length_map, List.length_range] at ht1
        exact ht1
      unfold matTranspose
      rw [List.getElem_map, List.getElem_range]
      have hcart : (cartProd vss)[t] = tupleAt vss t := by
        rw [← cartProd_getD vss t htN, List.getD_eq_getElem]
      rw [hcart]
      apply List.ext_getElem
      · rw [List.length_map, sliceDirsIndexOf_length, tupleAt_length]
      · intro i hi1 hi2
        rw [List.length_map, sliceDirsIndexOf_length] at hi1
        rw [List.getElem_map]
        rw [← List.getD_eq_getElem (sliceDirsIndexOf vss (vss.map List.length)) []
          (show i < (sliceDirsIndexOf vss (vss.map List.length)).length by
            rw [sliceDirsIndexOf_length]; exact hi1)]
        rw [← List.getD_eq_getElem (tupleAt vss t) 0 hi2]
        rw [sliceDirsIndexOf_getD vss i hi1 hne]
        have hlsi : (vss.map List.length).getD i 0 = (vss.getD i []).length := by
          rw [List.getD_eq_getElem _ _ (by rw [List.length_map]; exact hi1),
            List.getElem_map, List.getD_eq_getElem _ _ hi1]
        have hcpos : 0 < ((vss.map List.length).take i).prod := by
          by_contra hc
          have hz : ((vss.map List.length).take i).prod = 0 := by omega
          have := List.prod_take_mul_prod_drop (vss.map List.length) i
          rw [hz, Nat.zero_mul] at this
          rw [← this] at htN
          omega
        have hbound : t < ((vss.map List.length).drop (i + 1)).prod *
            ((vss.getD i []).length * ((vss.map List.length).take i).prod) := by
          rw [← hlsi]
          rw [prod_decomp (vss.map List.length) i (by rw [List.length_map]; exact hi1)]
          exact htN
        rw [kronRavelOnes_getD _ _ _ t hbound hcpos]
        rw [tupleAt_getD vss t i hi1]

/-- Witness for C1 (amended): the two-axis example — sequences `[0,1,2]` and
`[0,1]` enumerate as `(0,0), (1,0), (2,0), (0,1), (1,1), (2,1)`: first axis
fastest. -/
theorem slice_dirs_index_cartesian_witness :
    matTranspose (sliceDirsIndexOf [[0, 1, 2], [0, 1]] [3, 2])
        (([[0, 1, 2], [0, 1]] : List (List Int)).map List.length).prod =
      cartProd [[0, 1, 2], [0, 1]] :=
  slice_dirs_index_cartesian [[0, 1, 2], [0, 1]] [3, 2] (by decide)

/-- Counterexample to claim C3 as stated: the window `slice(2, 3, 2)` on a
single axis of extent 10, padded `{before: 1, after: 1}`, has pad-extended
bounds `[1, 4)` fully inside the dataset (no boundary clipping: `2 - 1 ≥ 0`
and `3 + 1 ≤ 10`), yet the inverse crop of the padded block returns `[]`
instead of the window's own data `[data[2]]` — because the padded read
`slice(1, 4, 2)` re-phases the step-2 selection.  The round trip fails for
padded axes with step ≠ 1. -/
theorem padding_roundtrip_counterexample :
    getUnpaddedSliceData [some ⟨1, 1⟩]
        (getPaddedSliceData [⟨2, 3, 2⟩] [some ⟨1, 1⟩] [10]) = [[]] ∧
    [Sl.mk 2 3 2].map sliceIndices = [[2]] ∧
    (0 : Int) ≤ (2 : Int) - ((1 : Nat) : Int) ∧
    (3 : Int) + ((1 : Nat) : Int) ≤ ((10 : Nat) : Int) := by
  refine ⟨by rfl, by rfl, by decide, by decide⟩

/-- Claim C3 (corrected): for every window and padding spec such that no
boundary clipping occurs AND every padded axis has step 1, the inverse crop
is an exact inverse of padded materialization:
`_get_unpadded_slice_data (_get_padded_slice_data sl) = data[sl]`, axis by
axis (axes absent from the padding dictionary pass through unchanged). -/
theorem padding_roundtrip_noclip (sliceList : List Sl) (pads : List (Option Pad))
    (shape : List Nat)
    (hax : ∀ i p, pads.getD i none = some p →
      (sliceList.getD i ⟨0, 0, 1⟩).step = 1 ∧
      (sliceList.getD i ⟨0, 0, 1⟩).start ≤ (sliceList.getD i ⟨0, 0, 1⟩).stop ∧
      0 ≤ (sliceList.getD i ⟨0, 0, 1⟩).start - (p.before : Int) ∧
      (sliceList.getD i ⟨0, 0, 1⟩).stop + (p.after : Int) ≤ ((shape.getD i 0 : Nat) : Int)) :
    getUnpaddedSliceData pads (getPaddedSliceData sliceList pads shape) =
      sliceList.map sliceIndices := by
  unfold getUnpaddedSliceData getPaddedSliceData
  have hblen : ((List.range sliceList.length).map (fun i =>
      match pads.getD i none with
      | none => sliceIndices (sliceList.getD i ⟨0, 0, 1⟩)
      | some p => paddedAxis (sliceList.getD i ⟨0, 0, 1⟩) p (shape.getD i 0))).length =
      sliceList.length := by
    rw [List.length_map, List.length_range]
  rw [hblen]
  apply List.ext_getElem
  · rw [List.length_map, List.length_range, List.length_map]
  · intro t ht1 ht2
    rw [List.length_map, List.length_range] at ht1
    rw [List.getElem_map, List.getElem_range, List.getElem_map]
    have hax' := hax t
    have hget : ((List.range sliceList.length).map (fun i =>
        match pads.getD i none with
        | none => sliceIndices (sliceList.getD i ⟨0, 0, 1⟩)
        | some p => paddedAxis (sliceList.getD i ⟨0, 0, 1⟩) p (shape.getD i 0))).getD t [] =
        (match pads.getD t none with
        | none => sliceIndices (sliceList.getD t ⟨0, 0, 1⟩)
        | some p => paddedAxis (sliceList.getD t ⟨0, 0, 1⟩) p (shape.getD t 0)) := by
      rw [List.getD_eq_getElem _ _ (by rw [List.length_map, List.length_range]; exact ht1),
        List.getElem_map, List.getElem_range]
    rw [hget]
    have hsl : sliceList.getD t ⟨0, 0, 1⟩ = sliceList[t] :=
      List.getD_eq_getElem _ _ ht1
    cases hp : pads.getD t none with
    | none =>
        dsimp only
        rw [hsl]
    | some p =>
        dsimp only
        obtain ⟨h1, h2, h3, h4⟩ := hax' p hp
        rw [axis_roundtrip _ _ _ h1 h2 h3 h4, hsl]

/-- Witness for C3 (amended): a two-axis round trip — axis 0 padded
`{before: 1, after: 2}` on the step-1 window `slice(3, 6, 1)` of extent 10,
axis 1 unpadded with a step-2 selector. -/
theorem padding_roundtrip_noclip_witness :
    getUnpaddedSliceData [some ⟨1, 2⟩, none]
        (getPaddedSliceData [⟨3, 6, 1⟩, ⟨0, 4, 2⟩] [some ⟨1, 2⟩, none] [10, 10]) =
      [Sl.mk 3 6 1, Sl.mk 0 4 2].map sliceIndices :=
  padding_roundtrip_noclip [⟨3, 6, 1⟩, ⟨0, 4, 2⟩] [some ⟨1, 2⟩, none] [10, 10]
    (by
      intro i p hp
      match i, hp with
      | 0, hp =>
          cases Option.some.inj hp
          refine ⟨rfl, by decide, by decide, by decide⟩
      | 1, hp => cases hp
      | n + 2, hp =>
          rw [List.getD_eq_default _ _ (by simp)] at hp
          cases hp)

/-- Claim C9 (confirmed): `__grouped_slice_list` partitions the flat window
sequence into consecutive banks of size `length[0]` (whose in-order
concatenation is the original sequence), sub-splits each bank into nonempty
chunks of at most `max_frames` windows (whose concatenation is the bank), and
emits for each chunk exactly one batch window whose `groupDim` selector is
`slice(first.start, last.stop, stepGD)` while every other coordinate is
copied unchanged from the chunk's first window. -/
theorem grouped_slice_list_banks (sliceList : List (List Sel)) (len0 : Nat)
    (groupDim : Nat) (stepGD : Int) (m : Nat) (hm : 1 ≤ m) (h0 : 1 ≤ len0) :
    (splitList sliceList len0).flatten = sliceList ∧
    (∀ bank ∈ splitList sliceList len0, bank ≠ [] ∧ bank.length ≤ len0 ∧
      (splitList bank m).flatten = bank ∧
      ∀ sub ∈ splitList bank m, sub ≠ [] ∧ sub.length ≤ m) ∧
    groupedSliceListE sliceList len0 groupDim stepGD m =
      (splitList sliceList len0).flatMap (fun bank =>
        (splitList bank m).map (fun sub => specMergeChunk sub groupDim stepGD)) := by
  refine ⟨splitList_flatten len0 h0 sliceList, ?_, ?_⟩
  · intro bank hbank
    obtain ⟨hb1, hb2⟩ := splitList_mem sliceList len0 h0 bank hbank
    exact ⟨hb1, hb2, splitList_flatten m hm bank,
      fun sub hsub => splitList_mem bank m hm sub hsub⟩
  · unfold groupedSliceListE specMergeChunk
    apply List.flatMap_congr
    intro bank _
    apply List.map_congr_left
    intro sub _
    exact set_eq_range_map _ _ _

/-- Witness for C9: three single-position windows on axis 0 (bank size 3),
grouped with batch size 2 into batches `[0,2)` and `[2,3)`. -/
theorem grouped_slice_list_banks_witness :
    (splitList [[Sel.sl ⟨0, 1, 1⟩, Sel.all], [Sel.sl ⟨1, 2, 1⟩, Sel.all],
        [Sel.sl ⟨2, 3, 1⟩, Sel.all]] 3).flatten =
      [[Sel.sl ⟨0, 1, 1⟩, Sel.all], [Sel.sl ⟨1, 2, 1⟩, Sel.all],
        [Sel.sl ⟨2, 3, 1⟩, Sel.all]] ∧
    (∀ bank ∈ splitList [[Sel.sl ⟨0, 1, 1⟩, Sel.all], [Sel.sl ⟨1, 2, 1⟩, Sel.all],
        [Sel.sl ⟨2, 3, 1⟩, Sel.all]] 3, bank ≠ [] ∧ bank.length ≤ 3 ∧
      (splitList bank 2).flatten = bank ∧
      ∀ sub ∈ splitList bank 2, sub ≠ [] ∧ sub.length ≤ 2) ∧
    groupedSliceListE [[Sel.sl ⟨0, 1, 1⟩, Sel.all], [Sel.sl ⟨1, 2, 1⟩, Sel.all],
        [Sel.sl ⟨2, 3, 1⟩, Sel.all]] 3 0 1 2 =
      (splitList [[Sel.sl ⟨0, 1, 1⟩, Sel.all], [Sel.sl ⟨1, 2, 1⟩, Sel.all],
          [Sel.sl ⟨2, 3, 1⟩, Sel.all]] 3).flatMap (fun bank =>
        (splitList bank 2).map (fun sub => specMergeChunk sub 0 1)) :=
  grouped_slice_list_banks _ 3 0 1 2 (by decide) (by decide)

/-- Counterexample to claim C6 as stated: requesting chunk = 3 at step point 1
(preview `start=1, stop=2, step=1`) does NOT raise — offset −1 lands on
position `1 - 1 = 0`, which is not negative, so `_get_slice_dir_matrix`
returns the centred window `[0, 1, 2]`. -/
theorem slice_dir_matrix_no_error_at_one :
    sliceDirMatrix 1 2 1 3 = Except.ok [[0], [1], [2]] ∧
    sliceDirFlat 1 2 1 3 = Except.ok [0, 1, 2] := by
  constructor <;> rfl

/-- Claim C6 (corrected): for chunk `c ≥ 1`, `_get_slice_dir_matrix` fails
exactly when some step point `p` satisfies `p - c/2 < 0` (the lowest offset
is `-⌊c/2⌋`); when it succeeds, the flattened index sequence lists, for each
step point in order, the `c` contiguous positions offset by
`-⌊c/2⌋ … c - ⌊c/2⌋ - 1`.  In particular chunk 3 at step points `[10, 20]`
yields `[9,10,11,19,20,21]`, and the near-boundary error occurs at step
point 0 (not at step point 1, as the claim stated). -/
theorem slice_dir_matrix_centred (start stop step : Int) (c : Nat) (hc : 1 ≤ c) :
    ((∃ e, sliceDirMatrix start stop step c = Except.error e) ↔
      ∃ p ∈ npArange start stop step, p - ((c / 2 : Nat) : Int) < 0) ∧
    (∀ m, sliceDirMatrix start stop step c = Except.ok m →
      sliceDirFlat start stop step c =
        Except.ok ((npArange start stop step).flatMap
          (fun p => (List.range c).map
            (fun (k : Nat) => p + (k : Int) - ((c / 2 : Nat) : Int))))) ∧
    sliceDirFlat 10 21 10 3 = Except.ok [9, 10, 11, 19, 20, 21] ∧
    (∃ e, sliceDirMatrix 0 2 1 3 = Except.error e) := by
  have hiff : (((List.range c).map (fun (k : Nat) =>
      (npArange start stop step).map
        (fun p => p + (k : Int) - ((c / 2 : Nat) : Int)))).any
          (fun row => row.any (fun v => decide (v < 0))) = true) ↔
      ∃ p ∈ npArange start stop step, p - ((c / 2 : Nat) : Int) < 0 := by
    simp only [List.any_eq_true, List.mem_map, List.mem_range, decide_eq_true_eq]
    constructor
    · rintro ⟨row, ⟨k, hk, rfl⟩, v, hv, hlt⟩
      obtain ⟨p, hp, rfl⟩ := List.mem_map.1 hv
      exact ⟨p, hp, by omega⟩
    · rintro ⟨p, hp, hv⟩
      exact ⟨_, ⟨0, by omega, rfl⟩, _, List.mem_map.2 ⟨p, hp, rfl⟩, by omega⟩
  refine ⟨?_, ?_, by rfl, ⟨_, by rfl⟩⟩
  · unfold sliceDirMatrix
    constructor
    · rintro ⟨e, he⟩
      by_cases h : ((List.range c).map (fun (k : Nat) =>
          (npArange start stop step).map
            (fun p => p + (k : Int) - ((c / 2 : Nat) : Int)))).any
              (fun row => row.any (fun v => decide (v < 0))) = true
      · exact hiff.1 h
      · rw [if_neg h] at he
        cases he
    · intro hex
      exact ⟨_, by rw [if_pos (hiff.2 hex)]⟩
  · intro m hm
    unfold sliceDirFlat
    rw [hm]
    unfold sliceDirMatrix at hm
    by_cases h : ((List.range c).map (fun (k : Nat) =>
        (npArange start stop step).map
          (fun p => p + (k : Int) - ((c / 2 : Nat) : Int)))).any
            (fun row => row.any (fun v => decide (v < 0))) = true
    · rw [if_pos h] at hm
      cases hm
    · rw [if_neg h] at hm
      cases hm
      simp only [Except.map]
      rw [transpose_map_flatten c (npArange start stop step)
        (fun k p => p + (k : Int) - ((c / 2 : Nat) : Int))]

/-- Witness for C6: the spec's own scenario — chunk 3 at step points
`[10, 20]` (preview `start=10, stop=21, step=10`). -/
theorem slice_dir_matrix_centred_witness :
    ((∃ e, sliceDirMatrix 10 21 10 3 = Except.error e) ↔
      ∃ p ∈ npArange 10 21 10, p - ((3 / 2 : Nat) : Int) < 0) ∧
    (∀ m, sliceDirMatrix 10 21 10 3 = Except.ok m →
      sliceDirFlat 10 21 10 3 =
        Except.ok ((npArange 10 21 10).flatMap
          (fun p => (List.range 3).map
            (fun (k : Nat) => p + (k : Int) - ((3 / 2 : Nat) : Int))))) ∧
    sliceDirFlat 10 21 10 3 = Except.ok [9, 10, 11, 19, 20, 21] ∧
    (∃ e, sliceDirMatrix 0 2 1 3 = Except.error e) :=
  slice_dir_matrix_centred 10 21 10 3 (by decide)

/-- Witness for C5: a pristine state with a saved raw spec of
`{axis 0: before 1, after 2}` survives a short-batch call
(`fixed_dims = True`, `diff = 3`) with its padding directions, saved dict,
and `end_pad` flag all restored. -/
theorem padding_state_restored_witness :
    (paddedCallState true 0 3
        ⟨PadField.built (buildPadding [(0, ⟨1, 2⟩)]), some [(0, ⟨1, 2⟩)], false⟩).padding =
      (⟨PadField.built (buildPadding [(0, ⟨1, 2⟩)]), some [(0, ⟨1, 2⟩)],
        false⟩ : PState).padding ∧
    (paddedCallState true 0 3
        ⟨PadField.built (buildPadding [(0, ⟨1, 2⟩)]), some [(0, ⟨1, 2⟩)], false⟩).padDict =
      (⟨PadField.built (buildPadding [(0, ⟨1, 2⟩)]), some [(0, ⟨1, 2⟩)],
        false⟩ : PState).padDict ∧
    ((true = false ∨ (3 : Nat) ≠ 0 ∨
        (⟨PadField.built (buildPadding [(0, ⟨1, 2⟩)]), some [(0, ⟨1, 2⟩)],
          false⟩ : PState).padDict ≠ none) →
      paddedCallState true 0 3
          ⟨PadField.built (buildPadding [(0, ⟨1, 2⟩)]), some [(0, ⟨1, 2⟩)], false⟩ =
        ⟨PadField.built (buildPadding [(0, ⟨1, 2⟩)]), some [(0, ⟨1, 2⟩)], false⟩) ∧
    ((true = true ∧ (3 : Nat) = 0 ∧
        (⟨PadField.built (buildPadding [(0, ⟨1, 2⟩)]), some [(0, ⟨1, 2⟩)],
          false⟩ : PState).padDict = none) →
      paddedCallState true 0 3
          ⟨PadField.built (buildPadding [(0, ⟨1, 2⟩)]), some [(0, ⟨1, 2⟩)], false⟩ =
        { (⟨PadField.built (buildPadding [(0, ⟨1, 2⟩)]), some [(0, ⟨1, 2⟩)],
            false⟩ : PState) with endPad := true }) :=
  padding_state_restored
    ⟨PadField.built (buildPadding [(0, ⟨1, 2⟩)]), some [(0, ⟨1, 2⟩)], false⟩
    true 0 3 ⟨rfl, Or.inl ⟨_, rfl, rfl, rfl⟩⟩

end Savu
